import Mathlib

/-!
Verification of the AndroidLine scaffolding tool (src/androidline.py).

The development shallowly embeds the program: the pure substitution core
(Python str.replace chains) is modelled on lists of characters, and the
effectful pipeline (directory creation, cloning, descriptor rewriting,
gradle wrapper validation, build invocation) is modelled as a function
from an environment of external-world responses to a trace of events and
an exit status.
-/

namespace AndroidLine

/-! ## Generic lemmas about prefixes, suffixes and factors of lists -/

lemma prefNil {r : List Char} (h : r <+: ([] : List Char)) : r = [] := by
  obtain ⟨w, hw⟩ := h
  exact (List.append_eq_nil.mp hw).1

lemma infNil {q : List Char} (h : q <:+: ([] : List Char)) : q = [] := by
  obtain ⟨u, v, huv⟩ := h
  have h1 := (List.append_eq_nil.mp huv).1
  exact (List.append_eq_nil.mp h1).2

lemma prefApp {r x y : List Char} (h : r <+: x ++ y) :
    r <+: x ∨ ∃ r₂, r = x ++ r₂ ∧ r₂ <+: y := by
  obtain ⟨w, hw⟩ := h
  rcases List.append_eq_append_iff.mp hw with ⟨a, ha1, _⟩ | ⟨c, hc1, hc2⟩
  · exact Or.inl ⟨a, ha1.symm⟩
  · exact Or.inr ⟨c, hc1, ⟨w, hc2.symm⟩⟩

lemma prefCons {q : List Char} {c : Char} {t : List Char} (h : q <+: c :: t) :
    q = [] ∨ ∃ q', q = c :: q' ∧ q' <+: t := by
  obtain ⟨w, hw⟩ := h
  cases q with
  | nil => exact Or.inl rfl
  | cons a q' =>
      injection hw with h1 h2
      exact Or.inr ⟨q', by rw [h1], ⟨w, h2⟩⟩

lemma prefComp {l₁ l₂ s : List Char} (h₁ : l₁ <+: s) (h₂ : l₂ <+: s) :
    l₁ <+: l₂ ∨ l₂ <+: l₁ := by
  obtain ⟨u, hu⟩ := h₁
  obtain ⟨v, hv⟩ := h₂
  have h : l₁ ++ u = l₂ ++ v := by rw [hu, hv]
  rcases List.append_eq_append_iff.mp h with ⟨a, ha, _⟩ | ⟨c, hc, _⟩
  · exact Or.inl ⟨a, ha.symm⟩
  · exact Or.inr ⟨c, hc.symm⟩

lemma infSplit {q x y : List Char} (h : q <:+: x ++ y) :
    q <:+: x ∨ q <:+: y ∨
      ∃ q₁ q₂, q = q₁ ++ q₂ ∧ q₁ ≠ [] ∧ q₂ ≠ [] ∧ q₁ <:+ x ∧ q₂ <+: y := by
  obtain ⟨u, v, huv⟩ := h
  have h1 : u ++ (q ++ v) = x ++ y := by simpa [List.append_assoc] using huv
  rcases List.append_eq_append_iff.mp h1 with ⟨a, hx, hqv⟩ | ⟨c, _, hy⟩
  · rcases List.append_eq_append_iff.mp hqv with ⟨b, ha, _⟩ | ⟨d, hq, hy2⟩
    · refine Or.inl ⟨u, b, ?_⟩
      rw [hx, ha]
      simp [List.append_assoc]
    · by_cases hA : a = []
      · subst hA
        refine Or.inr (Or.inl ⟨[], v, ?_⟩)
        simp only [List.nil_append] at hq ⊢
        rw [hq, hy2]
      · by_cases hD : d = []
        · refine Or.inl ⟨u, [], ?_⟩
          subst hD
          rw [List.append_nil] at hq
          rw [hx, hq]
          simp
        · exact Or.inr (Or.inr ⟨a, d, hq, hA, hD, ⟨u, hx.symm⟩, ⟨v, hy2.symm⟩⟩)
  · refine Or.inr (Or.inl ⟨c, v, ?_⟩)
    rw [hy]
    simp [List.append_assoc]

lemma infCons {q : List Char} {c : Char} {t : List Char} (h : q <:+: c :: t) :
    q <+: c :: t ∨ q <:+: t := by
  obtain ⟨u, v, huv⟩ := h
  cases u with
  | nil => exact Or.inl ⟨v, by simpa using huv⟩
  | cons a u' =>
      injection huv with h1 h2
      exact Or.inr ⟨u', v, h2⟩

lemma infTail {q : List Char} {c : Char} {t : List Char} (h : q <:+: t) :
    q <:+: c :: t := by
  obtain ⟨u, v, huv⟩ := h
  exact ⟨c :: u, v, by simp [huv]⟩

lemma infAppL {q y : List Char} (x : List Char) (h : q <:+: y) : q <:+: x ++ y := by
  obtain ⟨u, v, huv⟩ := h
  exact ⟨x ++ u, v, by rw [List.append_assoc, List.append_assoc] at *; rw [huv]⟩

lemma infDrop {q s : List Char} {k : Nat} (h : q <:+: s.drop k) : q <:+: s := by
  obtain ⟨u, v, huv⟩ := h
  refine ⟨s.take k ++ u, v, ?_⟩
  calc (s.take k ++ u) ++ q ++ v = s.take k ++ (u ++ q ++ v) := by
        simp [List.append_assoc]
    _ = s.take k ++ s.drop k := by rw [huv]
    _ = s := List.take_append_drop k s

lemma prefInf {q s : List Char} (h : q <+: s) : q <:+: s := by
  obtain ⟨w, hw⟩ := h
  exact ⟨[], w, by simpa using hw⟩

lemma occMid (p x y : List Char) : p <:+: x ++ p ++ y := ⟨x, y, rfl⟩

lemma sufTrans {a b c : List Char} (h₁ : a <:+ b) (h₂ : b <:+ c) : a <:+ c := by
  obtain ⟨u, hu⟩ := h₁
  obtain ⟨v, hv⟩ := h₂
  exact ⟨v ++ u, by rw [List.append_assoc, hu, hv]⟩

lemma sufCons {c : Char} {l : List Char} : l <:+ c :: l := ⟨[c], rfl⟩

/-! ## Non-overlap of two strings

The predicate states that the two strings cannot overlap in any way
inside a larger string: no nonempty suffix of one is a prefix of the
other, and neither is a factor of the other.  It is the hypothesis under
which one literal substitution can neither destroy nor fabricate an
occurrence of the other string. -/

def indep (p q : List Char) : Prop :=
  (∀ t ∈ p.tails, t ≠ [] → ¬ t <+: q) ∧
  (∀ t ∈ q.tails, t ≠ [] → ¬ t <+: p) ∧
  ¬ p <:+: q ∧ ¬ q <:+: p

instance (p q : List Char) : Decidable (indep p q) := by
  unfold indep; infer_instance

lemma indepSymm {p q : List Char} (h : indep p q) : indep q p :=
  ⟨h.2.1, h.1, h.2.2.2, h.2.2.1⟩

lemma indep.sufNotPref {p q : List Char} (h : indep p q) {t : List Char}
    (ht : t <:+ p) (hne : t ≠ []) : ¬ t <+: q :=
  h.1 t ((List.mem_tails _ _).mpr ht) hne

lemma indep.sufNotPrefR {p q : List Char} (h : indep p q) {t : List Char}
    (ht : t <:+ q) (hne : t ≠ []) : ¬ t <+: p :=
  h.2.1 t ((List.mem_tails _ _).mpr ht) hne

lemma indep.notInf {p q : List Char} (h : indep p q) : ¬ p <:+: q := h.2.2.1

lemma indep.notInfR {p q : List Char} (h : indep p q) : ¬ q <:+: p := h.2.2.2

lemma indep.neNilR {p q : List Char} (h : indep p q) : q ≠ [] := by
  intro hq
  exact h.2.2.2 (hq ▸ ⟨[], p, by simp⟩)

/-! ## The substitution model

Python str.replace(old, new) scans left to right and replaces every
non-overlapping occurrence of old.  repGo is the fuel-indexed scan
(structurally recursive so that the kernel can evaluate it); repAll
instantiates the fuel with the length of the string, which always
suffices. -/

def repGo (p b : List Char) : Nat → List Char → List Char
  | 0, _ => []
  | Nat.succ n, s =>
    match s with
    | [] => []
    | c :: t =>
      if 0 < p.length ∧ p <+: (c :: t) then
        b ++ repGo p b n ((c :: t).drop p.length)
      else
        c :: repGo p b n t

def repAll (p b s : List Char) : List Char := repGo p b s.length s

-- Sanity checks mirroring Python str.replace semantics, including the
-- leftmost non-overlapping rescan that can leave a fresh occurrence.
example : repAll "ab".data "X".data "cabd".data = "cXd".data := by decide
example : repAll "ab".data "".data "aabb".data = "ab".data := by decide

lemma repGoZero (p b s : List Char) : repGo p b 0 s = [] := rfl

lemma repGoNil (p b : List Char) (n : Nat) : repGo p b n [] = [] := by
  cases n <;> rfl

lemma repGoCons (p b : List Char) (n : Nat) (c : Char) (t : List Char) :
    repGo p b (n + 1) (c :: t) =
      if 0 < p.length ∧ p <+: (c :: t) then
        b ++ repGo p b n ((c :: t).drop p.length)
      else
        c :: repGo p b n t := rfl

/-- Any nonempty suffix of a protected string q that survives as a prefix of
the output of the scan already was a prefix of the input, provided q cannot
overlap the replacement string b. -/
lemma prefKept {p b q : List Char} (hind : indep q b) :
    ∀ n s r, s.length ≤ n → r <:+ q → r ≠ [] → r <+: repGo p b n s → r <+: s := by
  intro n
  induction n with
  | zero =>
      intro s r _ _ hne hpre
      rw [repGoZero] at hpre
      exact absurd (prefNil hpre) hne
  | succ n ih =>
      intro s r hlen hsuf hne hpre
      cases s with
      | nil =>
          rw [repGoNil] at hpre
          exact absurd (prefNil hpre) hne
      | cons c t =>
          have hlen' : t.length ≤ n := by
            simp only [List.length_cons] at hlen; omega
          by_cases hc : 0 < p.length ∧ p <+: (c :: t)
          · rw [repGoCons, if_pos hc] at hpre
            rcases prefApp hpre with hrb | ⟨r₂, hr, _⟩
            · exact absurd hrb (hind.sufNotPref hsuf hne)
            · exfalso
              apply hind.notInfR
              obtain ⟨u, hu⟩ := hsuf
              exact ⟨u, r₂, by rw [List.append_assoc, ← hr, hu]⟩
          · rw [repGoCons, if_neg hc] at hpre
            rcases prefCons hpre with h0 | ⟨r', hr, hr'⟩
            · exact absurd h0 hne
            · by_cases hr'e : r' = []
              · subst hr'e
                rw [hr]
                exact ⟨t, rfl⟩
              · have hsuf'' : r' <:+ q := by
                  rw [hr] at hsuf
                  exact sufTrans sufCons hsuf
                obtain ⟨w, hw⟩ := ih t r' hlen' hsuf'' hr'e hr'
                rw [hr]
                exact ⟨w, by simp [hw]⟩

/-- After replacing p by b, no occurrence of p remains, provided p and b
cannot overlap. -/
lemma elimRep {p b : List Char} (hind : indep p b) (hp : p ≠ []) :
    ∀ n s, s.length ≤ n → ¬ p <:+: repGo p b n s := by
  intro n
  induction n with
  | zero =>
      intro s _ h
      rw [repGoZero] at h
      exact hp (infNil h)
  | succ n ih =>
      intro s hlen h
      cases s with
      | nil =>
          rw [repGoNil] at h
          exact hp (infNil h)
      | cons c t =>
          have hlen' : t.length ≤ n := by
            simp only [List.length_cons] at hlen; omega
          by_cases hc : 0 < p.length ∧ p <+: (c :: t)
          · rw [repGoCons, if_pos hc] at h
            have hdl : ((c :: t).drop p.length).length ≤ n := by
              rw [List.length_drop]
              simp only [List.length_cons] at hlen ⊢
              omega
            rcases infSplit h with h1 | h1 | ⟨q₁, q₂, hq, hq1, _, hq1b, _⟩
            · exact hind.notInf h1
            · exact ih _ hdl h1
            · exact hind.sufNotPrefR hq1b hq1 ⟨q₂, hq.symm⟩
          · rw [repGoCons, if_neg hc] at h
            rcases infCons h with h1 | h1
            · rcases prefCons h1 with h0 | ⟨p', hp', hp'R⟩
              · exact hp h0
              · have hple : 0 < p.length := List.length_pos.mpr hp
                by_cases hpe : p' = []
                · subst hpe
                  exact hc ⟨hple, by rw [hp']; exact ⟨t, rfl⟩⟩
                · have hsufp : p' <:+ p := by rw [hp']; exact sufCons
                  obtain ⟨w, hw⟩ := prefKept hind n t p' hlen' hsufp hpe hp'R
                  exact hc ⟨hple, by rw [hp']; exact ⟨w, by simp [hw]⟩⟩
            · exact ih t hlen' h1

/-- Replacing p by b fabricates no occurrence of another string q that was
absent, provided q and b cannot overlap. -/
lemma noCreate {p b q : List Char} (hind : indep q b) (hq : q ≠ []) :
    ∀ n s, s.length ≤ n → ¬ q <:+: s → ¬ q <:+: repGo p b n s := by
  intro n
  induction n with
  | zero =>
      intro s _ _ h
      rw [repGoZero] at h
      exact hq (infNil h)
  | succ n ih =>
      intro s hlen hns h
      cases s with
      | nil =>
          rw [repGoNil] at h
          exact hq (infNil h)
      | cons c t =>
          have hlen' : t.length ≤ n := by
            simp only [List.length_cons] at hlen; omega
          by_cases hc : 0 < p.length ∧ p <+: (c :: t)
          · rw [repGoCons, if_pos hc] at h
            have hdl : ((c :: t).drop p.length).length ≤ n := by
              rw [List.length_drop]
              simp only [List.length_cons] at hlen ⊢
              omega
            have hnd : ¬ q <:+: (c :: t).drop p.length := fun hh => hns (infDrop hh)
            rcases infSplit h with h1 | h1 | ⟨q₁, q₂, hqe, hq1, _, hq1b, _⟩
            · exact hind.notInf h1
            · exact ih _ hdl hnd h1
            · exact hind.sufNotPrefR hq1b hq1 ⟨q₂, hqe.symm⟩
          · rw [repGoCons, if_neg hc] at h
            rcases infCons h with h1 | h1
            · rcases prefCons h1 with h0 | ⟨q', hqe, hq'R⟩
              · exact hq h0
              · by_cases hq'e : q' = []
                · subst hq'e
                  exact hns (prefInf (by rw [hqe]; exact ⟨t, rfl⟩))
                · have hsufq : q' <:+ q := by rw [hqe]; exact sufCons
                  obtain ⟨w, hw⟩ := prefKept hind n t q' hlen' hsufq hq'e hq'R
                  exact hns (prefInf (by rw [hqe]; exact ⟨w, by simp [hw]⟩))
            · exact ih t hlen' (fun hh => hns (infTail hh)) h1

/-- If the scanned string contains p, the replacement string b occurs in
the output. -/
lemma insRep {p b : List Char} (hp : p ≠ []) :
    ∀ n s, s.length ≤ n → p <:+: s → b <:+: repGo p b n s := by
  intro n
  induction n with
  | zero =>
      intro s hlen hocc
      have hs : s = [] := List.length_eq_zero.mp (Nat.le_zero.mp hlen)
      exact absurd (infNil (hs ▸ hocc)) hp
  | succ n ih =>
      intro s hlen hocc
      cases s with
      | nil => exact absurd (infNil hocc) hp
      | cons c t =>
          have hlen' : t.length ≤ n := by
            simp only [List.length_cons] at hlen; omega
          by_cases hc : 0 < p.length ∧ p <+: (c :: t)
          · rw [repGoCons, if_pos hc]
            exact ⟨[], repGo p b n ((c :: t).drop p.length), by simp⟩
          · rw [repGoCons, if_neg hc]
            have hocc' : p <:+: t := by
              rcases infCons hocc with h1 | h1
              · exact absurd ⟨List.length_pos.mpr hp, h1⟩ hc
              · exact h1
            exact infTail (ih t hlen' hocc')

/-- A protected string m standing at the very front of the input stays a
prefix of the output, provided m cannot overlap the pattern p. -/
lemma presPref {p b m : List Char} (hind : indep p m) :
    ∀ n s m', s.length ≤ n → m' <:+ m → m' ≠ [] → m' <+: s → m' <+: repGo p b n s := by
  intro n
  induction n with
  | zero =>
      intro s m' hlen _ hne hpre
      have hs : s = [] := List.length_eq_zero.mp (Nat.le_zero.mp hlen)
      exact absurd (prefNil (hs ▸ hpre)) hne
  | succ n ih =>
      intro s m' hlen hsuf hne hpre
      cases s with
      | nil => exact absurd (prefNil hpre) hne
      | cons c t =>
          have hlen' : t.length ≤ n := by
            simp only [List.length_cons] at hlen; omega
          by_cases hc : 0 < p.length ∧ p <+: (c :: t)
          · exfalso
            rcases prefComp hc.2 hpre with h1 | h1
            · apply hind.notInf
              obtain ⟨w, hw⟩ := hsuf
              obtain ⟨r, hr⟩ := h1
              exact ⟨w, r, by rw [List.append_assoc, hr, hw]⟩
            · exact hind.sufNotPrefR hsuf hne h1
          · rw [repGoCons, if_neg hc]
            rcases prefCons hpre with h0 | ⟨m'', hm, hm'⟩
            · exact absurd h0 hne
            · by_cases hm''e : m'' = []
              · subst hm''e
                rw [hm]
                exact ⟨repGo p b n t, rfl⟩
              · have h1 : m'' <:+ m' := by rw [hm]; exact sufCons
                obtain ⟨w, hw⟩ := ih t m'' hlen' (sufTrans h1 hsuf) hm''e hm'
                rw [hm]
                exact ⟨w, by simp [hw]⟩

/-- An occurrence of a protected string m survives the replacement of p
by anything, provided m cannot overlap the pattern p. -/
lemma presRep {p b m : List Char} (hind : indep p m) (hm : m ≠ []) :
    ∀ n s, s.length ≤ n → m <:+: s → m <:+: repGo p b n s := by
  intro n
  induction n with
  | zero =>
      intro s hlen hocc
      have hs : s = [] := List.length_eq_zero.mp (Nat.le_zero.mp hlen)
      exact absurd (infNil (hs ▸ hocc)) hm
  | succ n ih =>
      intro s hlen hocc
      cases s with
      | nil => exact absurd (infNil hocc) hm
      | cons c t =>
          obtain ⟨x, y, hxy⟩ := hocc
          have hlen' : t.length ≤ n := by
            simp only [List.length_cons] at hlen; omega
          cases x with
          | nil =>
              have hpre : m <+: c :: t := ⟨y, by simpa using hxy⟩
              exact prefInf (presPref hind (n + 1) (c :: t) m hlen (List.suffix_refl m) hm hpre)
          | cons a x' =>
              by_cases hc : 0 < p.length ∧ p <+: (c :: t)
              · rw [repGoCons, if_pos hc]
                have hdl : ((c :: t).drop p.length).length ≤ n := by
                  rw [List.length_drop]
                  simp only [List.length_cons] at hlen ⊢
                  omega
                have hxpre : (a :: x') <+: c :: t :=
                  ⟨m ++ y, by rw [← hxy]; simp [List.append_assoc]⟩
                rcases prefComp hc.2 hxpre with h1 | h1
                · obtain ⟨x₂, hx₂⟩ := h1
                  have hdrop : (c :: t).drop p.length = x₂ ++ m ++ y := by
                    rw [← hxy, ← hx₂]
                    rw [List.append_assoc, List.append_assoc, List.drop_left]
                    rw [← List.append_assoc]
                  have hmd : m <:+: (c :: t).drop p.length := by
                    rw [hdrop]; exact occMid m x₂ y
                  exact infAppL b (ih _ hdl hmd)
                · obtain ⟨t₀, ht₀⟩ := h1
                  by_cases ht₀e : t₀ = []
                  · have hxp : (a :: x') = p := by simpa [ht₀e] using ht₀
                    have hdrop : (c :: t).drop p.length = m ++ y := by
                      rw [← hxy, hxp, List.append_assoc, List.drop_left]
                    have hmd : m <:+: (c :: t).drop p.length := by
                      rw [hdrop]; exact occMid m [] y
                    exact infAppL b (ih _ hdl hmd)
                  · exfalso
                    obtain ⟨w, hw⟩ := hc.2
                    have h3 : p ++ w = (a :: x' ++ m) ++ y := by rw [hw, hxy]
                    rw [← ht₀] at h3
                    rw [List.append_assoc, List.append_assoc] at h3
                    have h2 : t₀ ++ w = m ++ y := List.append_cancel_left h3
                    rcases prefApp (⟨w, h2⟩ : t₀ <+: m ++ y) with h4 | ⟨t₂, ht₂, _⟩
                    · exact hind.sufNotPref (⟨a :: x', ht₀⟩ : t₀ <:+ p) ht₀e h4
                    · apply hind.notInfR
                      exact ⟨a :: x', t₂, by rw [List.append_assoc, ← ht₂, ht₀]⟩
              · rw [repGoCons, if_neg hc]
                have hxy' : x' ++ m ++ y = t := by
                  injection hxy with _ h2
                exact infTail (ih t hlen' ⟨x', y, hxy'⟩)

/-- If the string contains no occurrence of p, the scan is the identity. -/
lemma noopRep {p b : List Char} :
    ∀ n s, s.length ≤ n → ¬ p <:+: s → repGo p b n s = s := by
  intro n
  induction n with
  | zero =>
      intro s hlen _
      rw [repGoZero]
      exact (List.length_eq_zero.mp (Nat.le_zero.mp hlen)).symm
  | succ n ih =>
      intro s hlen hn
      cases s with
      | nil => rw [repGoNil]
      | cons c t =>
          have hlen' : t.length ≤ n := by
            simp only [List.length_cons] at hlen; omega
          have hnc : ¬ (0 < p.length ∧ p <+: (c :: t)) := fun hc => hn (prefInf hc.2)
          rw [repGoCons, if_neg hnc, ih t hlen' (fun hh => hn (infTail hh))]

/-! Wrappers stated on repAll. -/

lemma repAllElim {p b : List Char} (hind : indep p b) (hp : p ≠ []) (s : List Char) :
    ¬ p <:+: repAll p b s := elimRep hind hp s.length s le_rfl

lemma repAllNoCreate {p b q : List Char} (hind : indep q b) (hq : q ≠ []) {s : List Char}
    (h : ¬ q <:+: s) : ¬ q <:+: repAll p b s := noCreate hind hq s.length s le_rfl h

lemma repAllIns {p b : List Char} (hp : p ≠ []) {s : List Char} (h : p <:+: s) :
    b <:+: repAll p b s := insRep hp s.length s le_rfl h

lemma repAllPres {p b m : List Char} (hind : indep p m) (hm : m ≠ []) {s : List Char}
    (h : m <:+: s) : m <:+: repAll p b s := presRep hind hm s.length s le_rfl h

lemma repAllNoop {p b s : List Char} (h : ¬ p <:+: s) : repAll p b s = s :=
  noopRep s.length s le_rfl h

/-! ## The program constants (from src/androidline.py) -/

/-- Default placeholder replaced with the user package name (line 39). -/
def pkgPh : List Char := "com.example.app".data

/-- Default minimum-SDK declaration replaced on line 40. -/
def minPh : List Char := "minSdkVersion 21".data

/-- Default target-SDK declaration replaced on line 41. -/
def tgtPh : List Char := "targetSdkVersion 30".data

/-- The f-string replacement written for the minimum SDK. -/
def minRepl (mi : List Char) : List Char := "minSdkVersion ".data ++ mi

/-- The f-string replacement written for the target SDK. -/
def tgtRepl (ta : List Char) : List Char := "targetSdkVersion ".data ++ ta

/-- The three in-order str.replace calls of customize_project
(lines 39 to 41). -/
def customizeContent (content pkg mi ta : List Char) : List Char :=
  repAll tgtPh (tgtRepl ta) (repAll minPh (minRepl mi) (repAll pkgPh pkg content))

lemma pkgPhNe : pkgPh ≠ [] := by decide
lemma minPhNe : minPh ≠ [] := by decide
lemma tgtPhNe : tgtPh ≠ [] := by decide

lemma indepPhPM : indep pkgPh minPh := by decide
lemma indepPhPT : indep pkgPh tgtPh := by decide
lemma indepPhMT : indep minPh tgtPh := by decide

/-- Fixed template URL (line 155). -/
def templateRepo : List Char :=
  "https://github.com/H4-Corp/android-template-for-al.git".data

def gradlewPath (pn : List Char) : List Char := pn ++ "/gradlew".data

def apkPath (pn : List Char) : List Char :=
  pn ++ "/app/build/outputs/apk/debug/app-debug.apk".data

/-- Pieces of the synthesized default build.gradle text
(create_default_build_gradle, lines 50 to 76); literal braces and quote
characters are escaped. -/
def dbg1 : String :=
  "\napply plugin: \x27com.android.application\x27\n\nandroid \x7b\n    compileSdkVersion 30\n    defaultConfig \x7b\n        applicationId \""

def dbg2 : String := "\"\n        minSdkVersion "

def dbg3 : String := "\n        targetSdkVersion "

def dbg4 : String :=
  "\n        versionCode 1\n        versionName \"1.0\"\n    \x7d\n    buildTypes \x7b\n        release \x7b\n            minifyEnabled false\n            proguardFiles getDefaultProguardFile(\x27proguard-android-optimize.txt\x27), \x27proguard-rules.pro\x27\n        \x7d\n        debug \x7b\n            debuggable true\n        \x7d\n    \x7d\n\x7d\n\ndependencies \x7b\n    implementation \x27com.android.support:appcompat-v7:28.0.0\x27\n\x7d\n"

/-- The synthesized descriptor, with the three user values interpolated. -/
def defaultBuildGradle (pkg mi ta : List Char) : List Char :=
  dbg1.data ++ pkg ++ dbg2.data ++ mi ++ dbg3.data ++ ta ++ dbg4.data

lemma dbgHasPkg (pkg mi ta : List Char) : pkg <:+: defaultBuildGradle pkg mi ta := by
  unfold defaultBuildGradle
  exact ⟨dbg1.data, dbg2.data ++ mi ++ dbg3.data ++ ta ++ dbg4.data, by
    simp [List.append_assoc]⟩

lemma dbgHasMin (pkg mi ta : List Char) : mi <:+: defaultBuildGradle pkg mi ta := by
  unfold defaultBuildGradle
  exact ⟨dbg1.data ++ pkg ++ dbg2.data, dbg3.data ++ ta ++ dbg4.data, by
    simp [List.append_assoc]⟩

lemma dbgHasTgt (pkg mi ta : List Char) : ta <:+: defaultBuildGradle pkg mi ta := by
  unfold defaultBuildGradle
  exact ⟨dbg1.data ++ pkg ++ dbg2.data ++ mi ++ dbg3.data, dbg4.data, by
    simp [List.append_assoc]⟩

/-! ## Message texts (print_colored call sites) -/

def msgUsage : List Char :=
  "Usage: python androidline.py <project_name> <package_name> <min_sdk> <target_sdk>".data

def msgArgsReceived : List Char := "Arguments received: ".data

def msgCreatingDir (pn : List Char) : List Char :=
  "Creating project directory: ".data ++ pn

def msgCloning : List Char := "Cloning template repository: ".data ++ templateRepo

def msgCloneFail : List Char := "Error: Failed to clone the repository.".data

def msgMissingGradle : List Char :=
  "Error: build.gradle is missing. Creating default build.gradle.".data

def msgCustomized (pn pkg mi ta : List Char) : List Char :=
  "Project ".data ++ pn ++ " customized with package name ".data ++ pkg ++
    ", minSdk ".data ++ mi ++ ", targetSdk ".data ++ ta ++ ".".data

def msgWrapperGen : List Char :=
  "gradlew not found. Running \x27gradle wrapper\x27 to generate it...".data

def msgWrapperFail : List Char :=
  "Error: Failed to generate gradle wrapper. Make sure Gradle is installed.".data

def msgCheckPerm : List Char := "Checking permissions for gradlew...".data

def msgPermFail : List Char := "Error: Failed to check gradlew permissions.".data

def msgSetExec : List Char :=
  "gradlew does not have execute permissions. Attempting to set them...".data

def msgChmodFail : List Char :=
  "Error: Failed to set executable permissions for gradlew. Please try setting permissions manually.".data

def msgHasExec : List Char := "gradlew already has executable permissions.".data

def msgStillMissing : List Char :=
  "gradlew not found even after running gradle wrapper. Please check the project directory.".data

def msgCompiling (pn : List Char) : List Char :=
  "Compiling project ".data ++ pn ++ " using gradlew...".data

def msgBuildFail : List Char := "Error: Gradle build failed.".data

def msgBuildErrPre : List Char := "Gradle error output: ".data

def msgBuildOk : List Char := "Build successful!".data

def msgApkOk (pn : List Char) : List Char :=
  "APK successfully built: ".data ++ apkPath pn

def msgApkMissing : List Char := "Error: APK not found. Build might have failed.".data

/-! ## The effectful pipeline model

The environment collects every response of the outside world that the
program branches on: results of the subprocess calls, existence of files,
and file contents.  Running a stage yields the list of observable events
(messages printed and external commands issued, in order) together with
the exit status: some code models sys.exit(code), none models normal
return to the caller. -/

inductive Color where
  | green
  | yellow
  | red
deriving DecidableEq

inductive Event where
  | msg (color : Color) (text : List Char)
  | mkdir (path : List Char) (existOk : Bool)
  | gitClone (repo path : List Char)
  | gradleWrapper
  | lsCheck (path : List Char)
  | chmodX (path : List Char)
  | synthDescriptor (content : List Char)
  | readDescriptor
  | writeDescriptor (content : List Char)
  | runBuild (path : List Char)
deriving DecidableEq

structure Outcome where
  events : List Event
  exitCode : Option Nat
deriving DecidableEq

structure Env where
  gradlewExists : Bool
  wrapperRc : Nat
  gradlewExistsAfterWrapper : Bool
  lsRc : Nat
  executable : Bool
  lsMeta : List Char
  lsPath : List Char
  chmodRc : Nat
  buildRc : Nat
  buildErr : List Char
  apkExists : Bool
  cloneRc : Nat
  descriptorExists : Bool
  descriptorContent : List Char
  projectDirExists : Bool

/-- The permission field of an ls -l line: x bits present exactly when the
file is executable. -/
def permBits : Bool → List Char
  | true => "-rwxr-xr-x".data
  | false => "-rw-r--r--".data

/-- The full ls -l output line the code inspects: permission field, then
link count, owner, group, size and date, then the listed path. -/
def lsLine (env : Env) : List Char := permBits env.executable ++ env.lsMeta ++ env.lsPath

/-- Lines 97 to 112 of ensure_gradlew: the permission inspection and the
possible chmod, entered once the launcher exists.  Note the code tests
whether the character x occurs anywhere in the whole ls -l line. -/
def ensureGradlewPerm (env : Env) (gp : List Char) (pre : List Event) : Outcome :=
  let ev := pre ++ [Event.msg Color.yellow msgCheckPerm, Event.lsCheck gp]
  if env.lsRc ≠ 0 then
    ⟨ev ++ [Event.msg Color.red msgPermFail], some 1⟩
  else if 'x' ∈ lsLine env then
    ⟨ev ++ [Event.msg Color.green msgHasExec], none⟩
  else
    let ev2 := ev ++ [Event.msg Color.yellow msgSetExec, Event.chmodX gp]
    if env.chmodRc ≠ 0 then
      ⟨ev2 ++ [Event.msg Color.red msgChmodFail], some 1⟩
    else
      ⟨ev2, none⟩

/-- ensure_gradlew (lines 85 to 115). -/
def ensureGradlew (env : Env) (pn : List Char) : Outcome :=
  let gp := gradlewPath pn
  if env.gradlewExists then
    ensureGradlewPerm env gp []
  else
    let ev1 := [Event.msg Color.yellow msgWrapperGen, Event.gradleWrapper]
    if env.wrapperRc ≠ 0 then
      ⟨ev1 ++ [Event.msg Color.red msgWrapperFail], some 1⟩
    else if env.gradlewExistsAfterWrapper then
      ensureGradlewPerm env gp ev1
    else
      ⟨ev1 ++ [Event.msg Color.red msgStillMissing], some 1⟩

/-- compile_project (lines 118 to 142). -/
def compileRun (env : Env) (pn : List Char) : Outcome :=
  let g := ensureGradlew env pn
  match g.exitCode with
  | some c => ⟨g.events, some c⟩
  | none =>
    let ev := g.events ++ [Event.msg Color.yellow (msgCompiling pn),
      Event.runBuild (gradlewPath pn)]
    if env.buildRc ≠ 0 then
      ⟨ev ++ [Event.msg Color.red msgBuildFail,
        Event.msg Color.red (msgBuildErrPre ++ env.buildErr)], some 1⟩
    else
      let ev2 := ev ++ [Event.msg Color.green msgBuildOk]
      if env.apkExists then
        ⟨ev2 ++ [Event.msg Color.green (msgApkOk pn)], none⟩
      else
        ⟨ev2 ++ [Event.msg Color.red msgApkMissing], none⟩

/-- customize_project (lines 26 to 46): synthesize the descriptor when it
is absent, then rewrite it in place with the three substitutions.  The
function has no failure exit of its own. -/
def customizeRun (env : Env) (pn pkg mi ta : List Char) : Outcome :=
  if env.descriptorExists then
    ⟨[Event.readDescriptor,
      Event.writeDescriptor (customizeContent env.descriptorContent pkg mi ta),
      Event.msg Color.green (msgCustomized pn pkg mi ta)], none⟩
  else
    ⟨[Event.msg Color.yellow msgMissingGradle,
      Event.synthDescriptor (defaultBuildGradle pkg mi ta),
      Event.readDescriptor,
      Event.writeDescriptor (customizeContent (defaultBuildGradle pkg mi ta) pkg mi ta),
      Event.msg Color.green (msgCustomized pn pkg mi ta)], none⟩

/-- Modelled from the documented semantics of the Python standard library
call os.makedirs(name, exist_ok=ok): it raises exactly when the directory
exists and exist_ok is false. -/
def makedirsRaises (dirExists ok : Bool) : Bool := dirExists && !ok

/-- The body of main for a well-formed argument vector (lines 150 to 170). -/
def mainBody (env : Env) (pn pkg mi ta : List Char) : Outcome :=
  let ev0 : List Event := [Event.msg Color.yellow msgArgsReceived,
    Event.msg Color.yellow (msgCreatingDir pn), Event.mkdir pn true]
  if makedirsRaises env.projectDirExists true then
    ⟨ev0, some 1⟩
  else
    let ev1 := ev0 ++ [Event.msg Color.yellow msgCloning, Event.gitClone templateRepo pn]
    if env.cloneRc ≠ 0 then
      ⟨ev1 ++ [Event.msg Color.red msgCloneFail], some 1⟩
    else
      let cu := customizeRun env pn pkg mi ta
      let co := compileRun env pn
      ⟨ev1 ++ cu.events ++ co.events, co.exitCode⟩

/-- main (lines 145 to 170): sys.argv holds the program name followed by
the positional arguments, so the length-five pattern is the
len(sys.argv) == 5 check of line 146. -/
def mainRun (env : Env) (argv : List (List Char)) : Outcome :=
  match argv with
  | [_, pn, pkg, mi, ta] => mainBody env pn pkg mi ta
  | _ => ⟨[Event.msg Color.red msgUsage], some 1⟩

/-- The process exit status: an explicit sys.exit code, or zero when main
runs to completion. -/
def programExit (o : Outcome) : Nat := o.exitCode.getD 0

def isLsEv : Event → Bool
  | Event.lsCheck _ => true
  | _ => false

def isChmodEv : Event → Bool
  | Event.chmodX _ => true
  | _ => false

def isMkdirEv : Event → Bool
  | Event.mkdir _ _ => true
  | _ => false

/-- The external-process events of the wrapper validator. -/
def isProcEv : Event → Bool
  | Event.gradleWrapper => true
  | Event.lsCheck _ => true
  | Event.chmodX _ => true
  | _ => false

def countEv (f : Event → Bool) (l : List Event) : Nat := (l.filter f).length

/-! ## Shared concrete inputs used by witnesses and counterexamples -/

/-- A descriptor containing the three default placeholders. -/
def cexDescriptor : List Char :=
  "applicationId \"com.example.app\" minSdkVersion 21 targetSdkVersion 30".data

def pkgW : List Char := "com.test.app".data
def miW : List Char := "23".data
def taW : List Char := "33".data
def pnW : List Char := "app".data

/-- A benign environment in which every external operation succeeds. -/
def envBase : Env :=
  { gradlewExists := true
    wrapperRc := 0
    gradlewExistsAfterWrapper := true
    lsRc := 0
    executable := true
    lsMeta := " 1 root root 4321 Jan 1 ".data
    lsPath := "app/gradlew".data
    chmodRc := 0
    buildRc := 0
    buildErr := []
    apkExists := true
    cloneRc := 0
    descriptorExists := true
    descriptorContent := "hello world".data
    projectDirExists := false }

/-! ## Claim C1 -/

/-- Claim C1 as frozen is false: with the natural input min_sdk = 21 the
rewritten descriptor still contains the placeholder string
minSdkVersion 21, although the source descriptor contained all three
placeholders.  The closed statement exhibits the violation. -/
theorem C1_counterexample :
    (pkgPh <:+: cexDescriptor ∧ minPh <:+: cexDescriptor ∧ tgtPh <:+: cexDescriptor) ∧
    minPh <:+: customizeContent cexDescriptor "com.test.app".data "21".data "33".data := by
  decide

/-- Claim C1 (amended): for every descriptor containing the three default
placeholders, and every supplied package name, min SDK and target SDK
whose three replacement texts cannot overlap any of the three placeholder
strings (no containment in either direction and no nonempty suffix of one
being a prefix of the other), the rewritten descriptor contains zero
occurrences of the placeholders and contains the package name,
minSdkVersion min_sdk and targetSdkVersion target_sdk. -/
theorem C1_amended_substitution
    (content pkg mi ta : List Char)
    (h1 : pkgPh <:+: content) (h2 : minPh <:+: content) (h3 : tgtPh <:+: content)
    (i11 : indep pkgPh pkg) (i12 : indep pkgPh (minRepl mi)) (i13 : indep pkgPh (tgtRepl ta))
    (i21 : indep minPh pkg) (i22 : indep minPh (minRepl mi)) (i23 : indep minPh (tgtRepl ta))
    (i31 : indep tgtPh pkg) (i32 : indep tgtPh (minRepl mi)) (i33 : indep tgtPh (tgtRepl ta)) :
    ¬ pkgPh <:+: customizeContent content pkg mi ta ∧
    ¬ minPh <:+: customizeContent content pkg mi ta ∧
    ¬ tgtPh <:+: customizeContent content pkg mi ta ∧
    pkg <:+: customizeContent content pkg mi ta ∧
    minRepl mi <:+: customizeContent content pkg mi ta ∧
    tgtRepl ta <:+: customizeContent content pkg mi ta := by
  have hmne : minRepl mi ≠ [] := by
    unfold minRepl
    intro h
    exact absurd (List.append_eq_nil.mp h).1 (by decide)
  have hpne : pkg ≠ [] := i21.neNilR
  unfold customizeContent
  refine ⟨?_, ?_, ?_, ?_, ?_, ?_⟩
  · exact repAllNoCreate i13 pkgPhNe
      (repAllNoCreate i12 pkgPhNe (repAllElim i11 pkgPhNe content))
  · exact repAllNoCreate i23 minPhNe (repAllElim i22 minPhNe _)
  · exact repAllElim i33 tgtPhNe _
  · exact repAllPres i31 hpne (repAllPres i21 hpne (repAllIns pkgPhNe h1))
  · exact repAllPres i32 hmne (repAllIns minPhNe (repAllPres indepPhPM minPhNe h2))
  · exact repAllIns tgtPhNe (repAllPres indepPhMT tgtPhNe (repAllPres indepPhPT tgtPhNe h3))

/-- Witness for C1_amended_substitution at concrete inputs. -/
theorem C1_witness :
    ((pkgPh <:+: cexDescriptor ∧ minPh <:+: cexDescriptor ∧ tgtPh <:+: cexDescriptor) ∧
     (indep pkgPh pkgW ∧ indep pkgPh (minRepl miW) ∧ indep pkgPh (tgtRepl taW)) ∧
     (indep minPh pkgW ∧ indep minPh (minRepl miW) ∧ indep minPh (tgtRepl taW)) ∧
     (indep tgtPh pkgW ∧ indep tgtPh (minRepl miW) ∧ indep tgtPh (tgtRepl taW))) ∧
    (¬ pkgPh <:+: customizeContent cexDescriptor pkgW miW taW ∧
     ¬ minPh <:+: customizeContent cexDescriptor pkgW miW taW ∧
     ¬ tgtPh <:+: customizeContent cexDescriptor pkgW miW taW ∧
     pkgW <:+: customizeContent cexDescriptor pkgW miW taW ∧
     minRepl miW <:+: customizeContent cexDescriptor pkgW miW taW ∧
     tgtRepl taW <:+: customizeContent cexDescriptor pkgW miW taW) :=
  ⟨⟨⟨by decide, by decide, by decide⟩,
    ⟨by decide, by decide, by decide⟩,
    ⟨by decide, by decide, by decide⟩,
    ⟨by decide, by decide, by decide⟩⟩,
   C1_amended_substitution cexDescriptor pkgW miW taW
     (by decide) (by decide) (by decide)
     (by decide) (by decide) (by decide)
     (by decide) (by decide) (by decide)
     (by decide) (by decide) (by decide)⟩

/-! ## Claim C3 -/

/-- Claim C3: if the existing descriptor contains none of the three
default placeholder strings, customize_project rewrites the file in
place with byte-for-byte identical content and raises no error (its
outcome is a normal return, and the written bytes equal the bytes
read). -/
theorem C3_noop_unchanged (env : Env) (pn pkg mi ta : List Char)
    (hex : env.descriptorExists = true)
    (h1 : ¬ pkgPh <:+: env.descriptorContent)
    (h2 : ¬ minPh <:+: env.descriptorContent)
    (h3 : ¬ tgtPh <:+: env.descriptorContent) :
    (customizeRun env pn pkg mi ta).events =
      [Event.readDescriptor, Event.writeDescriptor env.descriptorContent,
       Event.msg Color.green (msgCustomized pn pkg mi ta)] ∧
    (customizeRun env pn pkg mi ta).exitCode = none := by
  have hcc : customizeContent env.descriptorContent pkg mi ta = env.descriptorContent := by
    unfold customizeContent
    rw [repAllNoop h1, repAllNoop h2, repAllNoop h3]
  exact ⟨by simp [customizeRun, hex, hcc], by simp [customizeRun, hex]⟩

/-- Witness for C3_noop_unchanged at concrete inputs. -/
theorem C3_witness :
    (envBase.descriptorExists = true ∧
     ¬ pkgPh <:+: envBase.descriptorContent ∧
     ¬ minPh <:+: envBase.descriptorContent ∧
     ¬ tgtPh <:+: envBase.descriptorContent) ∧
    ((customizeRun envBase pnW pkgW miW taW).events =
      [Event.readDescriptor, Event.writeDescriptor envBase.descriptorContent,
       Event.msg Color.green (msgCustomized pnW pkgW miW taW)] ∧
     (customizeRun envBase pnW pkgW miW taW).exitCode = none) :=
  ⟨⟨rfl, by decide, by decide, by decide⟩,
   C3_noop_unchanged envBase pnW pkgW miW taW rfl (by decide) (by decide) (by decide)⟩

/-! ## Claim C4 -/

/-- Claim C4: when the descriptor file is absent, customize_project first
synthesizes the default descriptor, whose text contains the supplied
package identifier, minimum SDK and target SDK verbatim, before the
substitution step runs on it, and this recovery path never terminates the
run (the stage returns normally). -/
theorem C4_synthesizes_default (env : Env) (pn pkg mi ta : List Char)
    (hex : env.descriptorExists = false) :
    (customizeRun env pn pkg mi ta).events =
      [Event.msg Color.yellow msgMissingGradle,
       Event.synthDescriptor (defaultBuildGradle pkg mi ta),
       Event.readDescriptor,
       Event.writeDescriptor (customizeContent (defaultBuildGradle pkg mi ta) pkg mi ta),
       Event.msg Color.green (msgCustomized pn pkg mi ta)] ∧
    pkg <:+: defaultBuildGradle pkg mi ta ∧
    mi <:+: defaultBuildGradle pkg mi ta ∧
    ta <:+: defaultBuildGradle pkg mi ta ∧
    (customizeRun env pn pkg mi ta).exitCode = none := by
  exact ⟨by simp [customizeRun, hex], dbgHasPkg pkg mi ta, dbgHasMin pkg mi ta,
    dbgHasTgt pkg mi ta, by simp [customizeRun, hex]⟩

/-- Concrete environment with a missing descriptor. -/
def envC4 : Env := { envBase with descriptorExists := false }

/-- Witness for C4_synthesizes_default at concrete inputs. -/
theorem C4_witness :
    (envC4.descriptorExists = false) ∧
    ((customizeRun envC4 pnW pkgW miW taW).events =
      [Event.msg Color.yellow msgMissingGradle,
       Event.synthDescriptor (defaultBuildGradle pkgW miW taW),
       Event.readDescriptor,
       Event.writeDescriptor (customizeContent (defaultBuildGradle pkgW miW taW) pkgW miW taW),
       Event.msg Color.green (msgCustomized pnW pkgW miW taW)] ∧
     pkgW <:+: defaultBuildGradle pkgW miW taW ∧
     miW <:+: defaultBuildGradle pkgW miW taW ∧
     taW <:+: defaultBuildGradle pkgW miW taW ∧
     (customizeRun envC4 pnW pkgW miW taW).exitCode = none) :=
  ⟨rfl, C4_synthesizes_default envC4 pnW pkgW miW taW rfl⟩

/-! ## Claim C2 -/

/-- Environment of the failing input: the launcher exists at box/gradlew
with permission bits rw-r--r-- (not executable), and every subprocess
succeeds.  The ls -l line ends with the listed path, which contains the
character x. -/
def envC2 : Env := { envBase with executable := false, lsPath := "box/gradlew".data }

/-- Claim C2 is right about the intent but the code is wrong: executability
is decided by searching the character x anywhere in the whole ls -l output
line, so for the project directory box the path portion supplies an x and
the grant is never attempted on a file that lacks execute permission,
contradicting the claimed single chmod attempt.  The theorem evaluates the
model at the failing input: the file is not executable, yet no chmod event
is issued and the stage returns normally. -/
theorem C2_failing_eval :
    envC2.gradlewExists = true ∧ envC2.executable = false ∧
    'x' ∈ lsLine envC2 ∧
    countEv isChmodEv (ensureGradlew envC2 "box".data).events = 0 ∧
    (ensureGradlew envC2 "box".data).exitCode = none := by
  decide

/-! ## Claim C5 -/

/-- Claim C5: whenever the argument vector does not consist of the program
name plus exactly four positional arguments, main prints the red usage
diagnostic, exits with code 1, and no directory-creation action happens
before that exit. -/
theorem C5_usage_exit (env : Env) (argv : List (List Char))
    (h : argv.length ≠ 5) :
    programExit (mainRun env argv) = 1 ∧
    Event.msg Color.red msgUsage ∈ (mainRun env argv).events ∧
    countEv isMkdirEv (mainRun env argv).events = 0 := by
  have hm : mainRun env argv = ⟨[Event.msg Color.red msgUsage], some 1⟩ := by
    match argv with
    | [] => rfl
    | [_] => rfl
    | [_, _] => rfl
    | [_, _, _] => rfl
    | [_, _, _, _] => rfl
    | [_, _, _, _, _] => simp at h
    | _ :: _ :: _ :: _ :: _ :: _ :: _ => rfl
  rw [hm]
  exact ⟨rfl, by simp, rfl⟩

/-- Witness for C5_usage_exit at a concrete two-element vector. -/
theorem C5_witness :
    ((["androidline.py".data, "MyApp".data] : List (List Char)).length ≠ 5) ∧
    (programExit (mainRun envBase ["androidline.py".data, "MyApp".data]) = 1 ∧
     Event.msg Color.red msgUsage ∈
       (mainRun envBase ["androidline.py".data, "MyApp".data]).events ∧
     countEv isMkdirEv (mainRun envBase ["androidline.py".data, "MyApp".data]).events = 0) :=
  ⟨by decide, C5_usage_exit envBase ["androidline.py".data, "MyApp".data] (by decide)⟩

/-! ## Claim C6 -/

def argvW : List (List Char) := ["androidline.py".data, pnW, pkgW, miW, taW]

/-- Environment where the build succeeds but the artifact is absent. -/
def envC6 : Env := { envBase with apkExists := false }

/-- Claim C6 as frozen is false in its severity half: at a run where the
build exits 0 and the artifact is missing, the process exit code is 0 and
a message about the missing artifact is present, but that message is
printed in the red error style, and no warning-level (yellow) message
carries it. -/
theorem C6_counterexample :
    programExit (mainRun envC6 argvW) = 0 ∧
    Event.msg Color.red msgApkMissing ∈ (mainRun envC6 argvW).events ∧
    Event.msg Color.yellow msgApkMissing ∉ (mainRun envC6 argvW).events := by
  decide

/-- Claim C6 (amended): if the clone succeeds, the wrapper validation
returns normally, the build subprocess exits 0 and the artifact is absent,
then the program still terminates with exit code 0 and the absence is
reported by a non-fatal message in the output; the message is styled as a
red error line (text Error: APK not found), not as a warning-level
line. -/
theorem C6_amended_warning (env : Env) (a0 pn pkg mi ta : List Char)
    (hclone : env.cloneRc = 0)
    (hens : (ensureGradlew env pn).exitCode = none)
    (hbuild : env.buildRc = 0)
    (hapk : env.apkExists = false) :
    programExit (mainRun env [a0, pn, pkg, mi, ta]) = 0 ∧
    Event.msg Color.red msgApkMissing ∈ (mainRun env [a0, pn, pkg, mi, ta]).events := by
  have hco : compileRun env pn =
      ⟨(ensureGradlew env pn).events ++ [Event.msg Color.yellow (msgCompiling pn),
        Event.runBuild (gradlewPath pn), Event.msg Color.green msgBuildOk,
        Event.msg Color.red msgApkMissing], none⟩ := by
    simp [compileRun, hens, hbuild, hapk]
  constructor
  · simp [mainRun, mainBody, makedirsRaises, hclone, hco, programExit]
  · simp [mainRun, mainBody, makedirsRaises, hclone, hco]

/-- Witness for C6_amended_warning at concrete inputs. -/
theorem C6_witness :
    (envC6.cloneRc = 0 ∧ (ensureGradlew envC6 pnW).exitCode = none ∧
     envC6.buildRc = 0 ∧ envC6.apkExists = false) ∧
    (programExit (mainRun envC6 ["androidline.py".data, pnW, pkgW, miW, taW]) = 0 ∧
     Event.msg Color.red msgApkMissing ∈
       (mainRun envC6 ["androidline.py".data, pnW, pkgW, miW, taW]).events) :=
  ⟨⟨rfl, by decide, rfl, rfl⟩,
   C6_amended_warning envC6 "androidline.py".data pnW pkgW miW taW rfl (by decide) rfl rfl⟩

/-! ## Claim C7 -/

/-- Claim C7: when the launcher is absent at entry, the wrapper generation
command is the first external process action of the validator, before any
permission inspection or grant; and when generation fails the stage exits
with code 1 having issued no permission inspection and no grant. -/
theorem C7_wrapper_first (env : Env) (pn : List Char)
    (h : env.gradlewExists = false) :
    (ensureGradlew env pn).events.find? isProcEv = some Event.gradleWrapper ∧
    (env.wrapperRc ≠ 0 →
      (ensureGradlew env pn).exitCode = some 1 ∧
      countEv isLsEv (ensureGradlew env pn).events = 0 ∧
      countEv isChmodEv (ensureGradlew env pn).events = 0) := by
  constructor
  · have hshape : ∃ rest, (ensureGradlew env pn).events =
        Event.msg Color.yellow msgWrapperGen :: Event.gradleWrapper :: rest := by
      unfold ensureGradlew ensureGradlewPerm
      simp only [h, Bool.false_eq_true, if_false]
      split_ifs <;> exact ⟨_, rfl⟩
    obtain ⟨rest, hre⟩ := hshape
    rw [hre]
    rfl
  · intro hw
    have : ensureGradlew env pn =
        ⟨[Event.msg Color.yellow msgWrapperGen, Event.gradleWrapper,
          Event.msg Color.red msgWrapperFail], some 1⟩ := by
      simp [ensureGradlew, h, hw]
    rw [this]
    exact ⟨rfl, rfl, rfl⟩

/-- Environment where the launcher is absent and wrapper generation fails. -/
def envC7 : Env := { envBase with gradlewExists := false, wrapperRc := 1 }

/-- Witness for C7_wrapper_first at concrete inputs. -/
theorem C7_witness :
    (envC7.gradlewExists = false ∧ envC7.wrapperRc ≠ 0) ∧
    ((ensureGradlew envC7 pnW).events.find? isProcEv = some Event.gradleWrapper ∧
     (ensureGradlew envC7 pnW).exitCode = some 1 ∧
     countEv isLsEv (ensureGradlew envC7 pnW).events = 0 ∧
     countEv isChmodEv (ensureGradlew envC7 pnW).events = 0) :=
  ⟨⟨rfl, by decide⟩,
   ⟨(C7_wrapper_first envC7 pnW rfl).1, (C7_wrapper_first envC7 pnW rfl).2 (by decide)⟩⟩

/-! ## Claim C8 -/

/-- Claim C8: directory creation in main is idempotent: it passes
exist_ok, so the modelled makedirs raises nothing when the directory
already exists, and the run proceeds past the creation step to the clone
for every project name. -/
theorem C8_mkdir_idempotent (env : Env) (a0 pn pkg mi ta : List Char)
    (_h : env.projectDirExists = true) :
    makedirsRaises env.projectDirExists true = false ∧
    Event.mkdir pn true ∈ (mainRun env [a0, pn, pkg, mi, ta]).events ∧
    Event.gitClone templateRepo pn ∈ (mainRun env [a0, pn, pkg, mi, ta]).events := by
  have hmk : makedirsRaises env.projectDirExists true = false := by
    simp [makedirsRaises]
  refine ⟨hmk, ?_, ?_⟩
  · simp only [mainRun, mainBody, hmk, Bool.false_eq_true, if_false]
    split <;> simp
  · simp only [mainRun, mainBody, hmk, Bool.false_eq_true, if_false]
    split <;> simp

/-- Environment where the project directory already exists. -/
def envC8 : Env := { envBase with projectDirExists := true }

/-- Witness for C8_mkdir_idempotent at concrete inputs. -/
theorem C8_witness :
    (envC8.projectDirExists = true) ∧
    (makedirsRaises envC8.projectDirExists true = false ∧
     Event.mkdir pnW true ∈
       (mainRun envC8 ["androidline.py".data, pnW, pkgW, miW, taW]).events ∧
     Event.gitClone templateRepo pnW ∈
       (mainRun envC8 ["androidline.py".data, pnW, pkgW, miW, taW]).events) :=
  ⟨rfl, C8_mkdir_idempotent envC8 "androidline.py".data pnW pkgW miW taW rfl⟩

/-! ## Claim C9 -/

/-- Claim C9: main validates nothing about argument contents: for every
four positional argument strings, however malformed, the run creates the
directory named by the first, clones into it, and performs the
substitution with the argument strings exactly as given (the descriptor
write applies customizeContent to the verbatim strings). -/
theorem C9_no_validation (env : Env) (a0 pn pkg mi ta : List Char)
    (hclone : env.cloneRc = 0) :
    Event.mkdir pn true ∈ (mainRun env [a0, pn, pkg, mi, ta]).events ∧
    Event.gitClone templateRepo pn ∈ (mainRun env [a0, pn, pkg, mi, ta]).events ∧
    Event.writeDescriptor (customizeContent
        (if env.descriptorExists then env.descriptorContent else defaultBuildGradle pkg mi ta)
        pkg mi ta) ∈ (mainRun env [a0, pn, pkg, mi, ta]).events := by
  by_cases hd : env.descriptorExists = true
  · simp [mainRun, mainBody, makedirsRaises, hclone, customizeRun, hd]
  · simp only [Bool.not_eq_true] at hd
    simp [mainRun, mainBody, makedirsRaises, hclone, customizeRun, hd]

/-- Witness for C9_no_validation at concrete (deliberately malformed)
arguments: an empty package name and non-numeric SDK strings. -/
theorem C9_witness :
    (envBase.cloneRc = 0) ∧
    (Event.mkdir "My App".data true ∈
       (mainRun envBase ["androidline.py".data, "My App".data, "".data,
         "abc".data, "-7".data]).events ∧
     Event.gitClone templateRepo "My App".data ∈
       (mainRun envBase ["androidline.py".data, "My App".data, "".data,
         "abc".data, "-7".data]).events ∧
     Event.writeDescriptor (customizeContent
         (if envBase.descriptorExists then envBase.descriptorContent
          else defaultBuildGradle "".data "abc".data "-7".data)
         "".data "abc".data "-7".data) ∈
       (mainRun envBase ["androidline.py".data, "My App".data, "".data,
         "abc".data, "-7".data]).events) :=
  ⟨rfl, C9_no_validation envBase "androidline.py".data "My App".data "".data
    "abc".data "-7".data rfl⟩

/-! ## Claim C10 -/

/-- Claim C10: if wrapper generation reports success but the launcher
still does not exist, the validator prints the red diagnostic and exits
with code 1 without any permission inspection or grant. -/
theorem C10_missing_after_wrapper (env : Env) (pn : List Char)
    (h : env.gradlewExists = false) (hw : env.wrapperRc = 0)
    (hg : env.gradlewExistsAfterWrapper = false) :
    (ensureGradlew env pn).exitCode = some 1 ∧
    countEv isLsEv (ensureGradlew env pn).events = 0 ∧
    countEv isChmodEv (ensureGradlew env pn).events = 0 ∧
    Event.msg Color.red msgStillMissing ∈ (ensureGradlew env pn).events := by
  have he : ensureGradlew env pn =
      ⟨[Event.msg Color.yellow msgWrapperGen, Event.gradleWrapper,
        Event.msg Color.red msgStillMissing], some 1⟩ := by
    simp [ensureGradlew, h, hw, hg]
  rw [he]
  exact ⟨rfl, rfl, rfl, by simp⟩

/-- Environment where generation succeeds but the launcher stays absent. -/
def envC10 : Env :=
  { envBase with
    gradlewExists := false
    wrapperRc := 0
    gradlewExistsAfterWrapper := false }

/-- Witness for C10_missing_after_wrapper at concrete inputs. -/
theorem C10_witness :
    (envC10.gradlewExists = false ∧ envC10.wrapperRc = 0 ∧
     envC10.gradlewExistsAfterWrapper = false) ∧
    ((ensureGradlew envC10 pnW).exitCode = some 1 ∧
     countEv isLsEv (ensureGradlew envC10 pnW).events = 0 ∧
     countEv isChmodEv (ensureGradlew envC10 pnW).events = 0 ∧
     Event.msg Color.red msgStillMissing ∈ (ensureGradlew envC10 pnW).events) :=
  ⟨⟨rfl, rfl, rfl⟩, C10_missing_after_wrapper envC10 pnW rfl rfl rfl⟩

end AndroidLine
